import Mathlib

/-!
Shallow embedding of the gopowermax REST API transport client
(package `api`: `New`, `Do`, `DoWithHeaders`, `DoAndGetResponseBody`,
`ParseJSONError`, `addMetaData`, URL construction helpers), together with
theorems settling the specification claims about it.

Modelling conventions:
* Go `map[string]string` values are modelled as association lists (`HMap`)
  with unique-key insertion semantics; Go maps are unordered, so any
  representation with the Go lookup/assignment semantics is faithful.
* Go panics (out-of-range string indexing) are modelled as `Option`/explicit
  `panicked` outcomes.
* The pieces of the Go standard library the code relies on are modelled
  explicitly and minimally: `textproto.CanonicalMIMEHeaderKey` (used by
  `http.Header.Set/Add`), `http.StatusText`, the fact that
  `encoding/json.Decoder.Decode` returns `io.EOF` on empty input, and
  `strings.Replace(s, old, new, 1)`.
* JSON encoding/decoding of the opaque `interface{}` payloads is abstracted:
  a body carries its (possibly failing) encoding, and decoders are oracle
  functions supplied as arguments.
-/

namespace Pmax

/-- Go `map[string]string`, modelled as an association list with unique keys
maintained by `mInsert`. -/
abbrev HMap := List (String × String)

/-- Lookup in a Go string map (`v, ok := m[k]`), as an `Option`. -/
def mLookup (h : HMap) (k : String) : Option String :=
  match h with
  | [] => none
  | kv :: t => if kv.1 == k then some kv.2 else mLookup t k

/-- Go map assignment `m[k] = v`: replaces any existing binding of `k`.
Go maps are unordered, so normalizing to filter-then-append preserves the
observable (lookup) semantics. -/
def mInsert (h : HMap) (k v : String) : HMap :=
  (h.filter (fun kv => kv.1 != k)) ++ [(k, v)]

/-- Lookup in a possibly-nil Go map (reading a nil map yields not-found). -/
def mLookupOpt (h : Option HMap) (k : String) : Option String :=
  match h with
  | none => none
  | some hl => mLookup hl k

/-- First-of-two-options combinator used to state lookup lemmas. -/
def pickFirst (a b : Option String) : Option String :=
  match a with
  | some v => some v
  | none => b

/-- Modelled from the Go standard library (`net/textproto`): the set of bytes
allowed in a MIME header token (`validHeaderFieldByte`). -/
def isTokenChar (c : Char) : Bool :=
  (c.isAlpha || c.isDigit) ||
    (c.toNat ∈ [33, 35, 36, 37, 38, 39, 42, 43, 45, 46, 94, 95, 96, 124, 126])

/-- ASCII uppercase of a character (Go canonicalization is ASCII-only). -/
def upChar (c : Char) : Char :=
  if 97 ≤ c.toNat ∧ c.toNat ≤ 122 then Char.ofNat (c.toNat - 32) else c

/-- ASCII lowercase of a character. -/
def lowChar (c : Char) : Char :=
  if 65 ≤ c.toNat ∧ c.toNat ≤ 90 then Char.ofNat (c.toNat + 32) else c

/-- Canonicalization loop of `textproto.CanonicalMIMEHeaderKey`: uppercase
the first letter and every letter following a dash, lowercase the rest. -/
def canonKeyAux : Bool → List Char → List Char
  | _, [] => []
  | up, c :: cs => (if up then upChar c else lowChar c) :: canonKeyAux (c = '-') cs

/-- Modelled from the Go standard library: `textproto.CanonicalMIMEHeaderKey`,
which `http.Header.Set` and `http.Header.Add` apply to the key.  A key with a
byte that is not a valid token byte is returned unmodified. -/
def canonKey (s : String) : String :=
  if s.toList.all isTokenChar then ⟨canonKeyAux true s.toList⟩ else s

/-- `http.Header` of the outgoing request, modelled as a multi-valued
association list: `Add` appends, `Set` replaces all values of the key. -/
abbrev ReqHeaders := List (String × String)

/-- Modelled from the Go standard library: `http.Header.Add` (canonicalizes
the key, appends the value). -/
def hAdd (h : ReqHeaders) (k v : String) : ReqHeaders :=
  h ++ [(canonKey k, v)]

/-- Modelled from the Go standard library: `http.Header.Set` (canonicalizes
the key, replaces all existing values). -/
def hSet (h : ReqHeaders) (k v : String) : ReqHeaders :=
  (h.filter (fun kv => kv.1 != canonKey k)) ++ [(canonKey k, v)]

/-- Modelled from the Go standard library: `http.Header.Get` (first value of
the canonicalized key, or `""`). -/
def hGetStr (h : ReqHeaders) (k : String) : String :=
  match h.find? (fun kv => kv.1 == canonKey k) with
  | some kv => kv.2
  | none => ""

/-- All values carried by the `Content-Type` key of a request header, in
order; used to state how often the content type was set. -/
def ctValues (h : ReqHeaders) : List String :=
  (h.filter (fun kv => kv.1 == "Content-Type")).map (fun kv => kv.2)

/-- Does `pat` occur at the head of `s`? (helper for `replaceFirst`). -/
def startsWithL : List Char → List Char → Bool
  | [], _ => true
  | _ :: _, [] => false
  | p :: ps, c :: cs => (p == c) && startsWithL ps cs

/-- Remove the first occurrence of `pat` from `s`; `none` if absent. -/
def removeFirstAux (pat : List Char) : List Char → Option (List Char)
  | [] => if pat = [] then some [] else none
  | c :: cs =>
    if startsWithL pat (c :: cs) then some ((c :: cs).drop pat.length)
    else
      match removeFirstAux pat cs with
      | none => none
      | some r => some (c :: r)

/-- Modelled from the Go standard library: `strings.Replace(s, pat, "", 1)` —
delete the first occurrence of `pat` in `s`, if any. -/
def replaceFirst (s pat : String) : String :=
  match removeFirstAux pat.toList s.toList with
  | none => s
  | some r => ⟨r⟩

-- constants of the api package
def HeaderKeyContentType : String := "Content-Type"
def HeaderValContentTypeJSON : String := "application/json"
def headerValContentTypeBinaryOctetStream : String := "binary/octet-stream"

/-- The `body interface{}` argument of the client operations:
`null` is Go `nil`; `stream` is a body implementing `io.ReadCloser`
(carrying its raw bytes); `jsonVal` is any other non-nil value (carrying the
outcome of JSON-encoding it, `none` = `json.Encoder.Encode` fails).
Either non-nil shape may additionally expose the `MetaData() http.Header`
capability, carried as an optional header list (`none` = not implemented). -/
inductive Body where
  | null
  | stream (data : String) (meta : Option HMap)
  | jsonVal (enc : Option String) (meta : Option HMap)
deriving DecidableEq

/-- The `MetaData() http.Header` capability of a body value, if present. -/
def bodyMeta : Body → Option HMap
  | .null => none
  | .stream _ m => m
  | .jsonVal _ m => m

/-- The merge loop of `addMetaData`: `headers[k] = usgp.MetaData().Get(k)`
for every metadata key (a plain Go map assignment). -/
def mergeMeta (h : HMap) (meta : HMap) : HMap :=
  meta.foldl (fun acc kv => mInsert acc kv.1 kv.2) h

/-- `func addMetaData(headers map[string]string, body interface{})`: returns
early when the map is nil or the body is nil, otherwise copies the body's
metadata headers into the caller's map (assignment, so existing entries with
the same key are replaced).  The returned map is the caller's map after the
mutation. -/
def addMetaData (headers : Option HMap) (body : Body) : Option HMap :=
  match headers with
  | none => none
  | some h =>
    match bodyMeta body with
    | none => some h
    | some meta => some (mergeMeta h meta)

/-- `func beginsWithSlash(s string) bool { return s[0] == '/' }`.
Indexing `s[0]` panics on the empty string; the panic is modelled as
`none`. -/
def beginsWithSlash (s : String) : Option Bool :=
  if s = "" then none else some (s.front == '/')

/-- `func endsWithSlash(s string) bool { return s[len(s)-1] == '/' }`.
Indexing panics on the empty string, modelled as `none`. -/
def endsWithSlash (s : String) : Option Bool :=
  if s = "" then none else some (s.back == '/')

/-- URL construction of `DoAndGetResponseBody` (lines 303–325): the host,
then a `/` separator when the host does not end in `/` and the uri is
non-empty, then the uri with one leading `/` removed.  `none` models the Go
panic: the var block evaluates `endsWithSlash(c.host)` and
`beginsWithSlash(uri)` eagerly, so an empty host or an empty uri panics
before any of the `luri > 0` guards run. -/
def buildURL (host uri : String) : Option String :=
  match endsWithSlash host, beginsWithSlash uri with
  | some hes, some ubs =>
    some (host
      ++ (if !hes && uri != "" then "/" else "")
      ++ (if uri != "" then (if ubs then uri.drop 1 else uri) else ""))
  | _, _ => none

/-- The outgoing `*http.Request` as far as the claims observe it. -/
structure Request where
  method : String
  url : String
  payload : Option String
  headers : ReqHeaders
  basicAuth : Option String
deriving DecidableEq

/-- The `*http.Response` as far as the claims observe it: the numeric code,
the status line string (`res.Status`, e.g. `"404 Not Found"`), and the raw
body bytes. -/
structure Response where
  statusCode : Nat
  status : String
  body : String
deriving DecidableEq

/-- Modelled from the spec: the structured error type `types.Error`
(imported from the types package, whose source file is not included here) —
"Structured error shape exposed to callers:
httpStatusCode: int, message: string, ...optional vendor fields". -/
structure TypesError where
  httpStatusCode : Nat
  message : String
deriving DecidableEq

/-- The error taxonomy of the per-call paths.  `urlErr` is a `url.Parse`
failure, `serializationErr` a JSON-encoding failure, `newRequestErr` an
`http.NewRequest` failure, `transportErr` a failure of `c.http.Do`, and
`decodeErr`/`httpErr` the response-classification failures of
`DoWithHeaders`. -/
inductive ApiErr where
  | urlErr
  | serializationErr
  | newRequestErr
  | transportErr
  | decodeErr
  | httpErr (e : TypesError)
deriving DecidableEq

/-- What `DoAndGetResponseBody` does: a Go panic, a returned error, or a
returned response. -/
inductive DoRes where
  | panicked
  | errored (e : ApiErr)
  | ok (res : Response)
deriving DecidableEq

/-- Observable outcome of one `DoAndGetResponseBody` call: the returned
value, the request that was sent (if construction completed), whether
`c.http.Do` was invoked, and the caller's header map after the call (the
map is passed by reference and may be mutated by `addMetaData`). -/
structure DoOut where
  result : DoRes
  builtRequest : Option Request
  networkCalled : Bool
  callerHeaders : Option HMap
deriving DecidableEq

/-- The environment a call runs in: whether `url.Parse` accepts a string,
whether `http.NewRequest` accepts the method (the URL string was already
parsed), and the network (`c.http.Do`; `none` is a transport error, in which
case no response exists). -/
structure Env where
  parseOK : String → Bool
  methodOK : String → Bool
  net : Request → Option Response

/-- The `client` struct (the `http.Client` itself lives in `Env`). -/
structure ClientState where
  host : String
  token : String
  showHTTP : Bool
  debug : Bool

/-- The body-encoding branch of `DoAndGetResponseBody` (lines 335–360):
either a JSON-encoding failure, or the initial request plus the
`isContentTypeSet` flag. -/
inductive BuildStep where
  | serErr
  | built (req : Request) (ctSet : Bool)
deriving DecidableEq

/-- Lines 332–360: choose the encoding path and set the content type.
A stream body is used verbatim with the caller's `Content-Type` override or
`binary/octet-stream`; any other non-nil body is JSON-encoded (aborting on
failure) with the override or `application/json`; a nil body carries no
payload and sets nothing. -/
def buildInit (method urlStr : String) (headers : Option HMap) (body : Body) :
    BuildStep :=
  match body with
  | .stream data _ =>
    .built
      ⟨method, urlStr, some data,
        hSet [] HeaderKeyContentType
          ((mLookupOpt headers HeaderKeyContentType).getD
            headerValContentTypeBinaryOctetStream),
        none⟩
      true
  | .jsonVal enc _ =>
    match enc with
    | none => .serErr
    | some s =>
      .built
        ⟨method, urlStr, some s,
          hSet [] HeaderKeyContentType
            ((mLookupOpt headers HeaderKeyContentType).getD
              HeaderValContentTypeJSON),
          none⟩
        true
  | .null => .built ⟨method, urlStr, none, [], none⟩ false

/-- The header loop of lines 372–377: add every entry of the (merged) caller
map to the request headers, skipping `Content-Type` when it was already
established. -/
def applyHeaders (ctSet : Bool) (hl : HMap) (reqh : ReqHeaders) : ReqHeaders :=
  hl.foldl
    (fun acc kv =>
      if kv.1 == HeaderKeyContentType && ctSet then acc
      else hAdd acc kv.1 kv.2)
    reqh

/-- Lines 370–377 as a request transformer: run `addMetaData`, then copy the
(merged, possibly nil) caller map onto the request headers, skipping
`Content-Type` when it is already established. -/
def applyLoop (ctSet : Bool) (headers2 : Option HMap) (r : Request) : Request :=
  { r with
    headers :=
      match headers2 with
      | none => r.headers
      | some hl => applyHeaders ctSet hl r.headers }

/-- Lines 379–382: `req.SetBasicAuth("", c.token)` when the token is
non-empty. -/
def withAuth (tok : String) (r : Request) : Request :=
  if tok != "" then { r with basicAuth := some tok } else r

/-- Lines 388–398: run the exchange; a transport failure returns
`(nil, err)`, otherwise the response is handed back. -/
def finishNet (env : Env) (req : Request) (headers2 : Option HMap) : DoOut :=
  match env.net req with
  | none => ⟨.errored .transportErr, some req, true, headers2⟩
  | some res => ⟨.ok res, some req, true, headers2⟩

/-- `func (c *client) DoAndGetResponseBody` (lines 297–399): build the URL
(panicking on empty host or empty uri), parse it, encode the body and set
the content type, inject the body metadata into the caller's header map,
copy the map onto the request, attach the basic-auth token, and run the
exchange. -/
def DoAndGetResponseBody (env : Env) (c : ClientState) (method uri : String)
    (headers : Option HMap) (body : Body) : DoOut :=
  match buildURL c.host uri with
  | none => ⟨.panicked, none, false, headers⟩
  | some urlStr =>
    if !env.parseOK urlStr then ⟨.errored .urlErr, none, false, headers⟩
    else
      match buildInit method urlStr headers body with
      | .serErr => ⟨.errored .serializationErr, none, false, headers⟩
      | .built req ctSet =>
        if !env.methodOK method then
          ⟨.errored .newRequestErr, none, false, headers⟩
        else
          finishNet env
            (withAuth c.token
              (applyLoop
                (ctSet || (hGetStr req.headers HeaderKeyContentType != ""))
                (addMetaData headers body) req))
            (addMetaData headers body)

/-- Outcome of a `json.Decoder.Decode` call: a decoded value, `io.EOF`, or
any other error. -/
inductive DecodeOutcome (α : Type) where
  | ok (a : α)
  | eof
  | fail
deriving DecidableEq

/-- Modelled from the Go standard library: `json.NewDecoder(r).Decode(v)`
returns `io.EOF` when the input is empty; otherwise the outcome is given by
the oracle `dec` abstracting the JSON parser. -/
def jsonDecode {α : Type} (dec : String → DecodeOutcome α) (s : String) :
    DecodeOutcome α :=
  if s = "" then .eof else dec s

/-- Modelled from the Go standard library: `http.StatusText` for the codes
exercised here; unknown codes yield `""`. -/
def statusText : Nat → String
  | 200 => "OK"
  | 404 => "Not Found"
  | 500 => "Internal Server Error"
  | 503 => "Service Unavailable"
  | _ => ""

/-- `func (c *client) ParseJSONError` (lines 409–425): decode the body into
a fresh `types.Error`.  On any decode error, return a structured error made
of the status code and `http.StatusText(code)`.  On success, stamp the
observed status code over whatever the payload carried, and fall back to the
status line `r.Status` when the decoded message is empty. -/
def ParseJSONError (decErr : String → DecodeOutcome TypesError)
    (r : Response) : TypesError :=
  match jsonDecode decErr r.body with
  | .ok e =>
    { httpStatusCode := r.statusCode
      message := if e.message = "" then r.status else e.message }
  | .eof => { httpStatusCode := r.statusCode, message := statusText r.statusCode }
  | .fail => { httpStatusCode := r.statusCode, message := statusText r.statusCode }

/-- What `DoWithHeaders` does: a propagated panic, an error, or success. -/
inductive DWHRes where
  | panicked
  | errored (e : ApiErr)
  | ok
deriving DecidableEq

/-- Observable outcome of `DoWithHeaders`: the returned value, the decode
destination after the call (`resp interface{}`; `none` models a nil
destination), and the caller's header map after the call. -/
structure DWHOut (α : Type) where
  result : DWHRes
  destAfter : Option α
  callerHeaders : Option HMap
deriving DecidableEq

/-- `func (c *client) DoWithHeaders` (lines 262–295): run
`DoAndGetResponseBody`; propagate its error; on a 2xx response decode the
body into the destination when one was supplied, excusing `io.EOF`; on any
other status return `ParseJSONError` of the response. -/
def DoWithHeaders {α : Type} (env : Env) (c : ClientState)
    (dec : String → α → DecodeOutcome α)
    (decErr : String → DecodeOutcome TypesError)
    (method uri : String) (headers : Option HMap) (body : Body)
    (dest : Option α) : DWHOut α :=
  match DoAndGetResponseBody env c method uri headers body with
  | ⟨.panicked, _, _, ch⟩ => ⟨.panicked, dest, ch⟩
  | ⟨.errored e, _, _, ch⟩ => ⟨.errored e, dest, ch⟩
  | ⟨.ok res, _, _, ch⟩ =>
    if 200 ≤ res.statusCode ∧ res.statusCode ≤ 299 then
      match dest with
      | none => ⟨.ok, none, ch⟩
      | some d =>
        match jsonDecode (fun s => dec s d) res.body with
        | .ok d2 => ⟨.ok, some d2, ch⟩
        | .eof => ⟨.ok, some d, ch⟩
        | .fail => ⟨.errored .decodeErr, some d, ch⟩
    else ⟨.errored (.httpErr (ParseJSONError decErr res)), dest, ch⟩

/-- `func (c *client) Do` (lines 246–252): `DoWithHeaders` with a nil header
map. -/
def Do {α : Type} (env : Env) (c : ClientState)
    (dec : String → α → DecodeOutcome α)
    (decErr : String → DecodeOutcome TypesError)
    (method uri : String) (body : Body) (dest : Option α) : DWHOut α :=
  DoWithHeaders env c dec decErr method uri none body dest

/-- `func (c *client) Get` (lines 206–214). -/
def Get {α : Type} (env : Env) (c : ClientState)
    (dec : String → α → DecodeOutcome α)
    (decErr : String → DecodeOutcome TypesError)
    (uri : String) (headers : Option HMap) (dest : Option α) : DWHOut α :=
  DoWithHeaders env c dec decErr "GET" uri headers .null dest

/-- `func (c *client) Post` (lines 216–224). -/
def Post {α : Type} (env : Env) (c : ClientState)
    (dec : String → α → DecodeOutcome α)
    (decErr : String → DecodeOutcome TypesError)
    (uri : String) (headers : Option HMap) (body : Body) (dest : Option α) :
    DWHOut α :=
  DoWithHeaders env c dec decErr "POST" uri headers body dest

/-- `func (c *client) Put` (lines 226–234). -/
def Put {α : Type} (env : Env) (c : ClientState)
    (dec : String → α → DecodeOutcome α)
    (decErr : String → DecodeOutcome TypesError)
    (uri : String) (headers : Option HMap) (body : Body) (dest : Option α) :
    DWHOut α :=
  DoWithHeaders env c dec decErr "PUT" uri headers body dest

/-- `func (c *client) Delete` (lines 236–244). -/
def Delete {α : Type} (env : Env) (c : ClientState)
    (dec : String → α → DecodeOutcome α)
    (decErr : String → DecodeOutcome TypesError)
    (uri : String) (headers : Option HMap) (dest : Option α) : DWHOut α :=
  DoWithHeaders env c dec decErr "DELETE" uri headers .null dest

/-- `ClientOptions` (lines 121–137).  Timeouts are opaque durations. -/
structure ClientOptions where
  insecure : Bool
  useCerts : Bool
  timeout : Nat
  showHTTP : Bool
  certFile : String
deriving DecidableEq

/-- A certificate pool, as a list of PEM blobs appended to the system set. -/
abbrev CertPool := List String

/-- Environment of `New`: the platform's system cert pool
(`x509.SystemCertPool`, `none` = unavailable), the filesystem
(`os.ReadFile`, `none` = read error), and whether `AppendCertsFromPEM`
accepts a blob. -/
structure NewEnv where
  systemPool : Option CertPool
  readFile : String → Option String
  pemOK : CertPool → String → Bool

/-- The TLS trust policy `New` installs on the transport. -/
inductive Transport where
  | insecureSkipVerify
  | withPool (pool : CertPool)
deriving DecidableEq

/-- The constructed client as `New` configures it. -/
structure ClientModel where
  host : String
  timeout : Nat
  transport : Transport
  showHTTP : Bool
  debug : Bool
  token : String
deriving DecidableEq

/-- The construction-time error taxonomy of `New`. -/
inductive NewErr where
  | missingEndpoint
  | sysCerts
  | readCert
  | appendCert
deriving DecidableEq

/-- `func New(host string, opts ClientOptions, debug bool)` (lines 140–199):
reject an empty host, strip the first `"/api"` from the host, install the
timeout, and pick the trust policy — skip verification when `Insecure` is
set, otherwise the system pool plus the optional extra certificate file.
`opts.UseCerts` is never read. -/
def New (env : NewEnv) (host : String) (opts : ClientOptions) (debug : Bool) :
    Except NewErr ClientModel :=
  if host = "" then .error .missingEndpoint
  else
    let host := replaceFirst host "/api"
    if opts.insecure then
      .ok ⟨host, opts.timeout, .insecureSkipVerify, opts.showHTTP, debug, ""⟩
    else
      match env.systemPool with
      | none => .error .sysCerts
      | some pool =>
        if opts.certFile ≠ "" then
          match env.readFile opts.certFile with
          | none => .error .readCert
          | some pem =>
            if !env.pemOK pool pem then .error .appendCert
            else
              .ok ⟨host, opts.timeout, .withPool (pool ++ [pem]),
                opts.showHTTP, debug, ""⟩
        else .ok ⟨host, opts.timeout, .withPool pool, opts.showHTTP, debug, ""⟩

/-- A header map spells every content-type-like key canonically: any key
that `http.Header` canonicalization would turn into `Content-Type` is
already the literal `Content-Type`. -/
def ctCanonical (hs : HMap) : Prop :=
  ∀ kv ∈ hs, canonKey kv.1 = HeaderKeyContentType → kv.1 = HeaderKeyContentType

/-- The body's JSON encoding succeeds (trivially true when no encoding is
performed). -/
def encOK : Body → Bool
  | .jsonVal none _ => false
  | _ => true

/-- The value of `isContentTypeSet` after lines 332–368: true exactly when
the body is non-nil (both non-nil branches set the content type; for a nil
body the request has no headers, so the `Get` check yields `""`). -/
def ctSetOf : Body → Bool
  | .null => false
  | _ => true

/-- The request headers established by the body-encoding branch (lines
335–360), before the header loop runs. -/
def initHeaders (headers : Option HMap) : Body → ReqHeaders
  | .null => []
  | .stream _ _ =>
    [(HeaderKeyContentType,
      (mLookupOpt headers HeaderKeyContentType).getD
        headerValContentTypeBinaryOctetStream)]
  | .jsonVal _ _ =>
    [(HeaderKeyContentType,
      (mLookupOpt headers HeaderKeyContentType).getD HeaderValContentTypeJSON)]

/-- The payload of a body: the stream's bytes, the JSON encoding, or none. -/
def bodyPayload : Body → Option String
  | .null => none
  | .stream d _ => some d
  | .jsonVal e _ => e

-- Concrete instances used by the witness theorems.

/-- An environment whose URL parser and method check accept everything and
whose network returns `200 OK` with an empty body. -/
def envOK : Env := ⟨fun _ => true, fun _ => true, fun _ => some ⟨200, "200 OK", ""⟩⟩

/-- An environment whose network returns `404 Not Found` with body bytes
that decode (under `dec404`) to an error payload carrying a conflicting
status value. -/
def env404 : Env := ⟨fun _ => true, fun _ => true, fun _ => some ⟨404, "404 Not Found", "nf"⟩⟩

/-- A sample constructed client. -/
def cSample : ClientState := ⟨"https://array.example.com", "", false, false⟩

/-- A decode oracle for `Nat` destinations that decodes any non-empty body
to `99`. -/
def decNat : String → Nat → DecodeOutcome Nat := fun _ _ => .ok 99

/-- An error-body decode oracle that always fails (an unparsable body). -/
def decFailAll : String → DecodeOutcome TypesError := fun _ => .fail

/-- An error-body decode oracle that decodes to an empty message. -/
def decOkEmpty : String → DecodeOutcome TypesError := fun _ => .ok ⟨0, ""⟩

/-- An error-body decode oracle: the body decodes to a payload with message
`"not found"` and a conflicting embedded status value `200`. -/
def dec404 : String → DecodeOutcome TypesError := fun _ => .ok ⟨200, "not found"⟩

/-- A `500` response whose status line is `"500 Internal Server Error"`. -/
def r500 : Response := ⟨500, "500 Internal Server Error", "junk"⟩

/-- Construction options with `Insecure` set (trust policy irrelevant). -/
def optsInsecure : ClientOptions := ⟨true, false, 0, false, ""⟩

/-- A trivial construction environment. -/
def envNewTriv : NewEnv := ⟨some [], fun _ => none, fun _ _ => false⟩

end Pmax
namespace Pmax

theorem mLookup_append (l1 l2 : HMap) (k : String) :
    mLookup (l1 ++ l2) k = pickFirst (mLookup l1 k) (mLookup l2 k) := by
  induction l1 with
  | nil => simp [mLookup, pickFirst]
  | cons a t ih =>
    by_cases h : a.1 = k
    · simp [mLookup, h, pickFirst]
    · simp [mLookup, h, ih]

theorem mLookup_filterOut (h : HMap) (k k' : String) :
    mLookup (h.filter (fun kv => kv.1 != k)) k'
    = if k' = k then none else mLookup h k' := by
  induction h with
  | nil => simp [mLookup]
  | cons a t ih =>
    by_cases hk : k' = k
    · subst hk
      by_cases ha : a.1 = k'
      · simpa [List.filter_cons, ha] using ih
      · simp only [if_pos rfl] at ih
        simp [List.filter_cons, ha, mLookup, ih]
    · by_cases ha : a.1 = k
      · have hak' : ¬ a.1 = k' := fun hh => hk (hh ▸ ha : (k' : String) = k)
        simp only [if_neg hk] at ih
        simp [List.filter_cons, ha, mLookup, hak', hk, ih,
          if_neg (show ¬ k = k' from fun hh => hk hh.symm)]
      · simp only [if_neg hk] at ih
        by_cases hak' : a.1 = k'
        · simp [List.filter_cons, ha, mLookup, hak', hk]
        · simp [List.filter_cons, ha, mLookup, hak', hk, ih]

theorem mLookup_mInsert (h : HMap) (k v k' : String) :
    mLookup (mInsert h k v) k' = if k' = k then some v else mLookup h k' := by
  rw [mInsert, mLookup_append, mLookup_filterOut]
  by_cases hk : k' = k
  · simp [hk, mLookup, pickFirst]
  · simp only [if_neg hk]
    cases hml : mLookup h k' with
    | none =>
      simp [pickFirst, mLookup, show (k == k') = false from by
        simpa using fun hh => hk hh.symm]
    | some v' => simp [pickFirst]

theorem mLookup_mergeMeta (h meta : HMap) (k : String) :
    mLookup (mergeMeta h meta) k
    = pickFirst (mLookup meta.reverse k) (mLookup h k) := by
  induction meta generalizing h with
  | nil => simp [mergeMeta, mLookup, pickFirst]
  | cons a t ih =>
    have step : mergeMeta h (a :: t) = mergeMeta (mInsert h a.1 a.2) t := rfl
    rw [step, ih, List.reverse_cons, mLookup_append, mLookup_mInsert]
    cases hml : mLookup t.reverse k with
    | some v => simp [pickFirst]
    | none =>
      by_cases hk : k = a.1
      · simp [pickFirst, mLookup, hk]
      · simp [pickFirst, mLookup, hk, show (a.1 == k) = false from by
          simpa using fun hh => hk hh.symm]

end Pmax
namespace Pmax

theorem canonKey_contentType : canonKey HeaderKeyContentType = HeaderKeyContentType := by decide

theorem hSet_nil (k v : String) : hSet [] k v = [(canonKey k, v)] := rfl

theorem ctValues_append (h1 h2 : ReqHeaders) :
    ctValues (h1 ++ h2) = ctValues h1 ++ ctValues h2 := by
  simp [ctValues, List.filter_append]

theorem ctValues_hAdd_ne (h : ReqHeaders) (k v : String)
    (hk : canonKey k ≠ HeaderKeyContentType) :
    ctValues (hAdd h k v) = ctValues h := by
  have : (canonKey k == "Content-Type") = false := by
    simpa [HeaderKeyContentType] using hk
  simp [hAdd, ctValues_append, ctValues, this]

theorem ctCanonical_mInsert (h : HMap) (k v : String) (hq : ctCanonical h)
    (hk : canonKey k = HeaderKeyContentType → k = HeaderKeyContentType) :
    ctCanonical (mInsert h k v) := by
  intro kv hkv hck
  rcases List.mem_append.1 hkv with hmem | hmem
  · exact hq kv (List.mem_of_mem_filter hmem) hck
  · rw [List.mem_singleton] at hmem
    subst hmem
    exact hk hck

theorem ctCanonical_mergeMeta : ∀ (m h : HMap),
    ctCanonical h → ctCanonical m → ctCanonical (mergeMeta h m) := by
  intro m
  induction m with
  | nil => intro h hq _; exact hq
  | cons a t ih =>
    intro h hq hm
    have step : mergeMeta h (a :: t) = mergeMeta (mInsert h a.1 a.2) t := rfl
    rw [step]
    refine ih (mInsert h a.1 a.2) ?_ ?_
    · exact ctCanonical_mInsert h a.1 a.2 hq
        (fun hc => hm a (List.mem_cons_self a t) hc)
    · intro kv hkv
      exact hm kv (List.mem_cons_of_mem a hkv)

theorem ctValues_applyHeaders : ∀ (hl : HMap) (reqh : ReqHeaders),
    ctCanonical hl → ctValues (applyHeaders true hl reqh) = ctValues reqh := by
  intro hl
  induction hl with
  | nil => intro reqh _; rfl
  | cons a t ih =>
    intro reqh hq
    have step : applyHeaders true (a :: t) reqh
        = applyHeaders true t
            (if a.1 == HeaderKeyContentType && true then reqh
             else hAdd reqh a.1 a.2) := rfl
    rw [step]
    by_cases hact : a.1 = HeaderKeyContentType
    · simp only [hact, beq_self_eq_true, Bool.true_and, if_pos]
      exact ih reqh (fun kv hkv => hq kv (List.mem_cons_of_mem a hkv))
    · have hbe : (a.1 == HeaderKeyContentType && true) = false := by
        simpa using hact
      rw [hbe, if_neg (by simp)]
      rw [ih (hAdd reqh a.1 a.2) (fun kv hkv => hq kv (List.mem_cons_of_mem a hkv))]
      exact ctValues_hAdd_ne reqh a.1 a.2
        (fun hc => hact (hq a (List.mem_cons_self a t) hc))

theorem withAuth_payload (tok : String) (r : Request) :
    (withAuth tok r).payload = r.payload := by
  unfold withAuth; split <;> rfl

theorem withAuth_headers (tok : String) (r : Request) :
    (withAuth tok r).headers = r.headers := by
  unfold withAuth; split <;> rfl

theorem applyLoop_payload (ctSet : Bool) (h2 : Option HMap) (r : Request) :
    (applyLoop ctSet h2 r).payload = r.payload := rfl

theorem finishNet_builtRequest (env : Env) (req : Request) (h2 : Option HMap) :
    (finishNet env req h2).builtRequest = some req := by
  unfold finishNet; cases env.net req <;> rfl

theorem finishNet_callerHeaders (env : Env) (req : Request) (h2 : Option HMap) :
    (finishNet env req h2).callerHeaders = h2 := by
  unfold finishNet; cases env.net req <;> rfl

theorem finishNet_networkCalled (env : Env) (req : Request) (h2 : Option HMap) :
    (finishNet env req h2).networkCalled = true := by
  unfold finishNet; cases env.net req <;> rfl

theorem doAGRB_fields (env : Env) (c : ClientState) (method uri : String)
    (headers : Option HMap) (body : Body)
    (hh : c.host ≠ "") (hu : uri ≠ "")
    (hp : ∀ t, env.parseOK t = true) (hmk : env.methodOK method = true)
    (he : encOK body = true) :
    ∃ req,
      (DoAndGetResponseBody env c method uri headers body).builtRequest = some req
      ∧ (DoAndGetResponseBody env c method uri headers body).callerHeaders
          = addMetaData headers body
      ∧ (DoAndGetResponseBody env c method uri headers body).networkCalled = true
      ∧ req.payload = bodyPayload body
      ∧ req.headers
          = (match addMetaData headers body with
             | none => initHeaders headers body
             | some hl => applyHeaders (ctSetOf body) hl (initHeaders headers body)) := by
  have hbu : ∃ u, buildURL c.host uri = some u := by
    unfold buildURL endsWithSlash beginsWithSlash
    rw [if_neg hh, if_neg hu]
    exact ⟨_, rfl⟩
  obtain ⟨u, hbu⟩ := hbu
  unfold DoAndGetResponseBody
  rw [hbu]
  simp only [hp u, Bool.not_true, Bool.false_eq_true, if_false]
  cases body with
  | null =>
    simp only [buildInit, hmk, Bool.not_true, Bool.false_eq_true, if_false]
    refine ⟨_, finishNet_builtRequest _ _ _, finishNet_callerHeaders _ _ _,
      finishNet_networkCalled _ _ _, ?_, ?_⟩
    · rw [withAuth_payload, applyLoop_payload]
      rfl
    · rw [withAuth_headers]
      unfold applyLoop
      cases haddm : addMetaData headers Body.null <;>
        simp [haddm, initHeaders, ctSetOf, hGetStr, List.find?]
  | stream d m =>
    simp only [buildInit, hmk, Bool.not_true, Bool.false_eq_true, if_false]
    refine ⟨_, finishNet_builtRequest _ _ _, finishNet_callerHeaders _ _ _,
      finishNet_networkCalled _ _ _, ?_, ?_⟩
    · rw [withAuth_payload, applyLoop_payload]
      rfl
    · rw [withAuth_headers]
      unfold applyLoop
      cases haddm : addMetaData headers (Body.stream d m) <;>
        simp [haddm, initHeaders, ctSetOf, hSet, canonKey_contentType]
  | jsonVal e m =>
    cases e with
    | none => simp [encOK] at he
    | some s =>
      simp only [buildInit, hmk, Bool.not_true, Bool.false_eq_true, if_false]
      refine ⟨_, finishNet_builtRequest _ _ _, finishNet_callerHeaders _ _ _,
        finishNet_networkCalled _ _ _, ?_, ?_⟩
      · rw [withAuth_payload, applyLoop_payload]
        rfl
      · rw [withAuth_headers]
        unfold applyLoop
        cases haddm : addMetaData headers (Body.jsonVal (some s) m) <;>
          simp [haddm, initHeaders, ctSetOf, hSet, canonKey_contentType]

end Pmax
namespace Pmax

/-- C1: the spec claims `DoAndGetResponseBody` (and all operations built on
it) succeeds on an empty relative path, returning the host URL unchanged.
This is FALSE of the code: the var block evaluates
`beginsWithSlash(uri) = uri[0]` eagerly, so every call with an empty path
panics with an index-out-of-range before the `luri > 0` guards (which exist
precisely to handle the empty path, and are therefore dead code) can run.
The theorem evaluates the embedded code at the failing input: the URL is
never built and the call panics, through the whole stack. -/
theorem c1_empty_path_panics :
    buildURL cSample.host "" = none
    ∧ (DoAndGetResponseBody envOK cSample "GET" "" none .null).result = .panicked
    ∧ (DoWithHeaders envOK cSample decNat decFailAll "GET" "" none .null
        (none : Option Nat)).result = .panicked
    ∧ (Do envOK cSample decNat decFailAll "GET" "" .null
        (none : Option Nat)).result = .panicked
    ∧ (Get envOK cSample decNat decFailAll "" none
        (none : Option Nat)).result = .panicked := by
  refine ⟨rfl, rfl, rfl, rfl, rfl⟩

/-- C4 counterexample: with caller header `X-Foo: caller` already present
and a body whose metadata carries `X-Foo: meta`, the injection overwrites
the caller's entry — the claim that metadata-derived headers never
overwrite a header already present is false. -/
theorem c4_counterexample :
    mLookup [("X-Foo", "caller")] "X-Foo" = some "caller"
    ∧ (DoAndGetResponseBody envOK cSample "POST" "/x"
        (some [("X-Foo", "caller")])
        (Body.jsonVal (some "42") (some [("X-Foo", "meta")]))).callerHeaders
      = some [("X-Foo", "meta")]
    ∧ mLookup [("X-Foo", "meta")] "X-Foo" ≠ some "caller" := by
  refine ⟨by decide, by decide, by decide⟩

/-- C4 amended: metadata-derived headers are merged into the caller's header
set by plain map assignment, so a metadata entry REPLACES a caller-supplied
header with the same key (the last metadata binding of a key wins), while
headers under keys the metadata does not produce are preserved — the merge
is cumulative only across distinct keys. -/
theorem c4_amended (hdrs : Option HMap) (h m : HMap) (s d : String) (k : String) :
    addMetaData hdrs (Body.jsonVal (some s) (some m))
      = hdrs.map (fun hl => mergeMeta hl m)
    ∧ addMetaData hdrs (Body.stream d (some m))
      = hdrs.map (fun hl => mergeMeta hl m)
    ∧ mLookup (mergeMeta h m) k
      = pickFirst (mLookup m.reverse k) (mLookup h k) := by
  refine ⟨?_, ?_, mLookup_mergeMeta h m k⟩
  · cases hdrs <;> rfl
  · cases hdrs <;> rfl

/-- C7 counterexample: the two fallback paths of `ParseJSONError` do not
produce the same text, so they cannot both be "the HTTP status line text".
On a 500 response whose status line is `"500 Internal Server Error"`, an
unparsable body yields `http.StatusText(500) = "Internal Server Error"`
(no code prefix), while a parsable body with an empty message yields the
full status line `r.Status = "500 Internal Server Error"`. -/
theorem c7_counterexample :
    (ParseJSONError decFailAll r500).message = "Internal Server Error"
    ∧ (ParseJSONError decOkEmpty r500).message = "500 Internal Server Error"
    ∧ (ParseJSONError decFailAll r500).message
        ≠ (ParseJSONError decOkEmpty r500).message := by
  refine ⟨by decide, by decide, by decide⟩

/-- C7 amended: the message of the structured error is the decoded body's
message when decoding succeeds with a non-empty message; the full status
line `r.Status` (code and reason) when decoding succeeds with an empty
message; and `http.StatusText(code)` (the bare reason phrase) when decoding
fails. -/
theorem c7_amended (decErr : String → DecodeOutcome TypesError) (r : Response) :
    (∀ e, jsonDecode decErr r.body = .ok e →
      (ParseJSONError decErr r).message
        = (if e.message = "" then r.status else e.message))
    ∧ ((jsonDecode decErr r.body = .eof ∨ jsonDecode decErr r.body = .fail) →
      (ParseJSONError decErr r).message = statusText r.statusCode) := by
  constructor
  · intro e he
    unfold ParseJSONError
    rw [he]
  · intro he
    unfold ParseJSONError
    rcases he with he | he <;> rw [he]

/-- C7 amended, witness: on a body decoding to the non-empty message
`"boom"` the returned message is `"boom"`; the theorem applied at a
concrete input. -/
theorem c7_witness :
    jsonDecode (fun _ => DecodeOutcome.ok (⟨7, "boom"⟩ : TypesError)) r500.body
        = .ok ⟨7, "boom"⟩
    ∧ (ParseJSONError (fun _ => DecodeOutcome.ok (⟨7, "boom"⟩ : TypesError)) r500).message
        = "boom" := by
  exact ⟨rfl, by
    have h := (c7_amended (fun _ => DecodeOutcome.ok (⟨7, "boom"⟩ : TypesError)) r500).1
      ⟨7, "boom"⟩ rfl
    simpa using h⟩

end Pmax
namespace Pmax

/-- C8: a JSON-encoding failure of a non-nil, non-stream body aborts the
call with the serialization error before any network I/O: the exchange is
not attempted, no request is built, and the caller's header map is left
untouched. -/
theorem c8_serialization_before_network (env : Env) (c : ClientState)
    (method uri : String) (headers : Option HMap) (m : Option HMap)
    (hh : c.host ≠ "") (hu : uri ≠ "") (hp : ∀ t, env.parseOK t = true) :
    DoAndGetResponseBody env c method uri headers (Body.jsonVal none m)
      = ⟨.errored .serializationErr, none, false, headers⟩ := by
  have hbu : ∃ u, buildURL c.host uri = some u := by
    unfold buildURL endsWithSlash beginsWithSlash
    rw [if_neg hh, if_neg hu]
    exact ⟨_, rfl⟩
  obtain ⟨u, hbu⟩ := hbu
  unfold DoAndGetResponseBody
  rw [hbu]
  simp [hp u, buildInit]

/-- C8 witness: the theorem applied at a concrete client, environment and
body. -/
theorem c8_witness :
    cSample.host ≠ ""
    ∧ "/x" ≠ ""
    ∧ DoAndGetResponseBody envOK cSample "POST" "/x" none (Body.jsonVal none none)
        = ⟨.errored .serializationErr, none, false, none⟩ := by
  refine ⟨by decide, by decide, ?_⟩
  exact c8_serialization_before_network envOK cSample "POST" "/x" none none
    (by decide) (by decide) (fun t => rfl)

/-- C9: `opts.UseCerts` is dead configuration — `New` never reads it, so for
every host, option bundle, environment and debug flag the constructed client
and the error outcome are identical whether the flag is true or false. -/
theorem c9_usecerts_never_read (env : NewEnv) (host : String)
    (opts : ClientOptions) (debug : Bool) (b1 b2 : Bool) :
    New env host { opts with useCerts := b1 } debug
      = New env host { opts with useCerts := b2 } debug := by
  cases opts
  rfl

/-- C2: whenever the exchange produced a response with a status outside
[200,299], `DoWithHeaders` returns the structured error produced by
`ParseJSONError` — never the transport-error bucket — and its
`httpStatusCode` field equals the response's actual status code, whatever
status value the decoded body carried. -/
theorem c2_non2xx_structured_error {α : Type} (env : Env) (c : ClientState)
    (dec : String → α → DecodeOutcome α)
    (decErr : String → DecodeOutcome TypesError)
    (method uri : String) (headers : Option HMap) (body : Body)
    (dest : Option α) (res : Response)
    (hres : (DoAndGetResponseBody env c method uri headers body).result = .ok res)
    (hcode : ¬ (200 ≤ res.statusCode ∧ res.statusCode ≤ 299)) :
    (DoWithHeaders env c dec decErr method uri headers body dest).result
      = .errored (.httpErr (ParseJSONError decErr res))
    ∧ (ParseJSONError decErr res).httpStatusCode = res.statusCode := by
  constructor
  · unfold DoWithHeaders
    rcases hdo : DoAndGetResponseBody env c method uri headers body with ⟨r, br, nc, ch⟩
    rw [hdo] at hres
    have hr : r = .ok res := hres
    subst hr
    simp [hcode]
  · unfold ParseJSONError
    cases jsonDecode decErr res.body <;> rfl

/-- C2 witness: a 404 exchange whose body decodes to a payload carrying the
conflicting embedded status 200 and message "not found"; the returned error
is the structured one with the actual code 404 stamped over it. -/
theorem c2_witness :
    (DoAndGetResponseBody env404 cSample "GET" "/x" none .null).result
        = .ok ⟨404, "404 Not Found", "nf"⟩
    ∧ (DoWithHeaders env404 cSample decNat dec404 "GET" "/x" none .null
        (none : Option Nat)).result
        = .errored (.httpErr ⟨404, "not found"⟩)
    ∧ (ParseJSONError dec404 ⟨404, "404 Not Found", "nf"⟩).httpStatusCode = 404 := by
  have h := c2_non2xx_structured_error (α := Nat) env404 cSample decNat dec404
    "GET" "/x" none .null none ⟨404, "404 Not Found", "nf"⟩ (by decide) (by decide)
  refine ⟨by decide, ?_, h.2⟩
  rw [h.1]
  decide

/-- C6: a success response (status in [200,299]) with an empty body and a
non-nil decode destination is a no-op decode: `DoWithHeaders` succeeds and
the destination is unchanged (the `io.EOF` from decoding an empty body is
excused, not surfaced as a decode error). -/
theorem c6_empty_success_body_noop {α : Type} (env : Env) (c : ClientState)
    (dec : String → α → DecodeOutcome α)
    (decErr : String → DecodeOutcome TypesError)
    (method uri : String) (headers : Option HMap) (body : Body)
    (d : α) (res : Response)
    (hres : (DoAndGetResponseBody env c method uri headers body).result = .ok res)
    (h1 : 200 ≤ res.statusCode) (h2 : res.statusCode ≤ 299)
    (hb : res.body = "") :
    (DoWithHeaders env c dec decErr method uri headers body (some d)).result = .ok
    ∧ (DoWithHeaders env c dec decErr method uri headers body (some d)).destAfter
        = some d := by
  unfold DoWithHeaders
  rcases hdo : DoAndGetResponseBody env c method uri headers body with ⟨r, br, nc, ch⟩
  rw [hdo] at hres
  have hr : r = .ok res := hres
  subst hr
  simp [if_pos (And.intro h1 h2), jsonDecode, hb]

/-- C6 witness: the theorem applied to a concrete 200 exchange with an empty
body and destination 7. -/
theorem c6_witness :
    (DoAndGetResponseBody envOK cSample "GET" "/x" none .null).result
        = .ok ⟨200, "200 OK", ""⟩
    ∧ (DoWithHeaders envOK cSample decNat decFailAll "GET" "/x" none .null
        (some 7)).result = .ok
    ∧ (DoWithHeaders envOK cSample decNat decFailAll "GET" "/x" none .null
        (some 7)).destAfter = some 7 := by
  have h := c6_empty_success_body_noop envOK cSample decNat decFailAll
    "GET" "/x" none .null 7 ⟨200, "200 OK", ""⟩ (by decide) (by decide)
    (by decide) (by decide)
  exact ⟨by decide, h.1, h.2⟩

end Pmax
namespace Pmax

/-- C3: for a non-empty host and non-empty path, the built URL is the host,
then a single `/` separator exactly when the host does not end in `/`, then
the path with one leading `/` dropped; and construction (`New`) strips the
first occurrence of the literal `"/api"` from the host — in particular the
spec's concrete scenario holds end to end. -/
theorem c3_url_join :
    (∀ host uri : String, host ≠ "" → uri ≠ "" →
      buildURL host uri
        = some (host ++ (if host.back == '/' then "" else "/")
            ++ (if uri.front == '/' then uri.drop 1 else uri)))
    ∧ replaceFirst "https://array.example.com/api" "/api"
        = "https://array.example.com"
    ∧ New envNewTriv "https://array.example.com/api" optsInsecure false
        = .ok ⟨"https://array.example.com", 0, .insecureSkipVerify, false, false, ""⟩
    ∧ buildURL "https://array.example.com" "/sloprovisioning/symmetrix"
        = some "https://array.example.com/sloprovisioning/symmetrix" := by
  refine ⟨?_, by decide, rfl, by decide⟩
  intro host uri hh hu
  unfold buildURL endsWithSlash beginsWithSlash
  rw [if_neg hh, if_neg hu]
  have hbne : (uri != "") = true := by simpa using hu
  simp only [hbne, Bool.and_true]
  cases hhb : host.back == '/' <;> cases hub : uri.front == '/' <;> simp

/-- C3 witness: the universally quantified join equation applied at a
concrete host and path. -/
theorem c3_witness :
    ("h" : String) ≠ "" ∧ ("p" : String) ≠ ""
    ∧ buildURL "h" "p" = some "h/p" := by
  refine ⟨by decide, by decide, ?_⟩
  have h := c3_url_join.1 "h" "p" (by decide) (by decide)
  simpa using h

/-- C5 counterexample: the claim says the `Content-Type` header is set
exactly once (to `application/json` here, since the caller map has no
`Content-Type` entry — its key is spelled `content-type`).  In the code the
header loop does not skip the differently-spelled key, and `http.Header.Add`
canonicalizes it, so the built request ends up with TWO `Content-Type`
values. -/
theorem c5_counterexample :
    mLookup [("content-type", "text/plain")] HeaderKeyContentType = none
    ∧ ((DoAndGetResponseBody envOK cSample "POST" "/x"
        (some [("content-type", "text/plain")])
        (Body.jsonVal (some "42") none)).builtRequest.map
          (fun r => ctValues r.headers))
      = some ["application/json", "text/plain"]
    ∧ (["application/json", "text/plain"] : List String)
        ≠ [HeaderValContentTypeJSON] := by
  refine ⟨by decide, by decide, by decide⟩

/-- C5 amended: for a non-nil, non-stream body that encodes to `s`, the
request payload is exactly `s`, and — provided every caller- or
metadata-supplied key that canonicalizes to `Content-Type` is spelled
exactly `Content-Type` — the request carries exactly one `Content-Type`
value: the caller override verbatim when the caller map has a
`Content-Type` entry, `application/json` otherwise.  (A differently spelled
key such as `content-type` is instead appended as a second value, per the
counterexample.) -/
theorem c5_amended (env : Env) (c : ClientState) (method uri : String)
    (hl : Option HMap) (s : String) (m : Option HMap)
    (hh : c.host ≠ "") (hu : uri ≠ "") (hp : ∀ t, env.parseOK t = true)
    (hmk : env.methodOK method = true)
    (hq1 : ctCanonical (hl.getD [])) (hq2 : ctCanonical (m.getD [])) :
    ∃ req,
      (DoAndGetResponseBody env c method uri hl
          (Body.jsonVal (some s) m)).builtRequest = some req
      ∧ req.payload = some s
      ∧ ctValues req.headers
          = [(mLookupOpt hl HeaderKeyContentType).getD HeaderValContentTypeJSON] := by
  obtain ⟨req, hbr, _, _, hpay, hhdr⟩ :=
    doAGRB_fields env c method uri hl (Body.jsonVal (some s) m) hh hu hp hmk
      (by cases m <;> rfl)
  refine ⟨req, hbr, by simpa [bodyPayload] using hpay, ?_⟩
  rw [hhdr]
  have hinit : ctValues (initHeaders hl (Body.jsonVal (some s) m))
      = [(mLookupOpt hl HeaderKeyContentType).getD HeaderValContentTypeJSON] := by
    simp [initHeaders, ctValues, HeaderKeyContentType]
  cases hl with
  | none =>
    simpa [addMetaData] using hinit
  | some hll =>
    cases m with
    | none =>
      have ha : addMetaData (some hll) (Body.jsonVal (some s) none) = some hll := rfl
      simp only [ha, ctSetOf]
      rw [ctValues_applyHeaders hll _ (by simpa using hq1)]
      exact hinit
    | some mm =>
      have ha : addMetaData (some hll) (Body.jsonVal (some s) (some mm))
          = some (mergeMeta hll mm) := rfl
      simp only [ha, ctSetOf]
      rw [ctValues_applyHeaders (mergeMeta hll mm) _
        (ctCanonical_mergeMeta mm hll (by simpa using hq1) (by simpa using hq2))]
      exact hinit

/-- C5 amended, witness: with the canonical caller override
`Content-Type: text/plain`, the payload is the encoding and the single
content-type value is the override, verbatim. -/
theorem c5_witness :
    ∃ req,
      (DoAndGetResponseBody envOK cSample "POST" "/x"
          (some [("Content-Type", "text/plain")])
          (Body.jsonVal (some "42") none)).builtRequest = some req
      ∧ req.payload = some "42"
      ∧ ctValues req.headers = ["text/plain"] := by
  have h := c5_amended envOK cSample "POST" "/x"
    (some [("Content-Type", "text/plain")]) "42" none
    (by decide) (by decide) (fun t => rfl) rfl
    (by intro kv hkv hc; simp at hkv; rw [hkv]; rfl)
    (by intro kv hkv hc; simp at hkv)
  obtain ⟨req, h1, h2, h3⟩ := h
  exact ⟨req, h1, h2, by simpa [mLookupOpt, mLookup] using h3⟩

/-- C10: body-derived metadata headers reach a request only through the
caller-supplied header map: `Do` always passes a nil map; with a nil map the
caller state stays nil and the built request carries nothing but the
content-type header (metadata is silently dropped); with a non-nil map the
call hands back the caller's own map with the metadata entries written into
it (the Go map is mutated in place), each metadata binding being readable
from the merged map. -/
theorem c10_metadata_caller_map {α : Type} (env : Env) (c : ClientState)
    (dec : String → α → DecodeOutcome α)
    (decErr : String → DecodeOutcome TypesError)
    (method uri : String) (body : Body) (dest : Option α) (h : HMap)
    (hh : c.host ≠ "") (hu : uri ≠ "") (hp : ∀ t, env.parseOK t = true)
    (hmk : env.methodOK method = true) (he : encOK body = true) :
    Do env c dec decErr method uri body dest
      = DoWithHeaders env c dec decErr method uri none body dest
    ∧ (DoAndGetResponseBody env c method uri none body).callerHeaders = none
    ∧ (∀ req kv,
        (DoAndGetResponseBody env c method uri none body).builtRequest = some req →
        kv ∈ req.headers → kv.1 = HeaderKeyContentType)
    ∧ (DoAndGetResponseBody env c method uri (some h) body).callerHeaders
        = addMetaData (some h) body
    ∧ (∀ m k, bodyMeta body = some m →
        addMetaData (some h) body = some (mergeMeta h m)
        ∧ mLookup (mergeMeta h m) k
            = pickFirst (mLookup m.reverse k) (mLookup h k)) := by
  obtain ⟨reqN, hbrN, hchN, _, _, hhdN⟩ :=
    doAGRB_fields env c method uri none body hh hu hp hmk he
  obtain ⟨reqS, hbrS, hchS, _, _, _⟩ :=
    doAGRB_fields env c method uri (some h) body hh hu hp hmk he
  refine ⟨rfl, by rw [hchN]; rfl, ?_, hchS, ?_⟩
  · intro req kv hbr hmem
    rw [hbrN] at hbr
    injection hbr with hbr
    subst hbr
    simp only [addMetaData] at hhdN
    rw [hhdN] at hmem
    cases body with
    | null => simp [initHeaders] at hmem
    | stream d m =>
      simp only [initHeaders, List.mem_singleton] at hmem
      subst hmem
      rfl
    | jsonVal e m =>
      simp only [initHeaders, List.mem_singleton] at hmem
      subst hmem
      rfl
  · intro m k hm
    refine ⟨?_, mLookup_mergeMeta h m k⟩
    simp [addMetaData, hm]

/-- C10 witness: the theorem applied concretely — with a nil map the
metadata is dropped, with a caller map it is written into that map. -/
theorem c10_witness :
    (DoAndGetResponseBody envOK cSample "POST" "/x" none
        (Body.jsonVal (some "42") (some [("X-Req-Id", "7")]))).callerHeaders = none
    ∧ (DoAndGetResponseBody envOK cSample "POST" "/x" (some [("A", "1")])
        (Body.jsonVal (some "42") (some [("X-Req-Id", "7")]))).callerHeaders
      = some [("A", "1"), ("X-Req-Id", "7")] := by
  have h := c10_metadata_caller_map (α := Nat) envOK cSample decNat decFailAll
    "POST" "/x" (Body.jsonVal (some "42") (some [("X-Req-Id", "7")])) none
    [("A", "1")] (by decide) (by decide) (fun t => rfl) rfl rfl
  refine ⟨h.2.1, ?_⟩
  rw [h.2.2.2.1]
  decide

end Pmax
